import Mathlib

/-!
Verification development for the `caustics` gravitational-lensing library.

The Python sources are shallowly embedded: floating-point tensor arithmetic is modelled
pointwise over `ℝ`, Python exceptions are modelled with `Except`, and the branch selection of
`torch.where(c, A, B)` is modelled by its value semantics `if c then A else B`.
-/

open Real Filter Set

namespace Caustics

/-- The arcsecond→radian conversion constant of `constants.py` (not under src/):
`π / (180 · 3600)`. Its exact value is irrelevant to the theorems below, which use the same
constant on both sides. -/
noncomputable def arcsec_to_rad : ℝ := Real.pi / (180 * 3600)

/-- Modelled from the spec: the speed of light in Mpc/s from `constants.py` (not under src/).
Its exact value is irrelevant to the theorems below, which use the same constant on both
sides. -/
noncomputable def c_Mpc_s : ℝ := 299792458 / 3.0856775814913673e22

/-- The `Cosmology` adapter consumed by the lens classes (spec §6): a black box exposing
angular-diameter distances and the critical surface density, each accepting the same override
bundle `Packed` as the lenses. -/
structure Cosmology (Packed : Type) where
  angular_diameter_distance : ℝ → Packed → ℝ
  angular_diameter_distance_z1z2 : ℝ → ℝ → Packed → ℝ
  Sigma_cr : ℝ → ℝ → Packed → ℝ

/-- `ThinLens` (base.py, lines 122-330): the abstract primitives `deflection_angle`,
`convergence`, `potential`, together with the resolved lens redshift
`z_l = self.unpack(P)[0]` (a function of the override bundle) and the cosmology handle. -/
structure ThinLens (Packed : Type) where
  cosmology : Cosmology Packed
  unpack_z_l : Packed → ℝ
  deflection_angle : ℝ → ℝ → ℝ → Packed → ℝ × ℝ
  convergence : ℝ → ℝ → ℝ → Packed → ℝ
  potential : ℝ → ℝ → ℝ → Packed → ℝ

/-- `ThickLens` (base.py, lines 15-120): abstract `deflection_angle` plus the cosmology. -/
structure ThickLens (Packed : Type) where
  cosmology : Cosmology Packed
  deflection_angle : ℝ → ℝ → ℝ → Packed → ℝ × ℝ

/-- `ThinLens.raytrace` (base.py, lines 239-255):
`ax, ay = self.deflection_angle(x, y, z_s, P); return x - ax, y - ay`. -/
def ThinLens.raytrace {Packed : Type} (L : ThinLens Packed) (x y z_s : ℝ) (P : Packed) :
    ℝ × ℝ :=
  let a := L.deflection_angle x y z_s P
  (x - a.1, y - a.2)

/-- `ThickLens.raytrace` (base.py, lines 53-69): same formula as the thin-lens version. -/
def ThickLens.raytrace {Packed : Type} (L : ThickLens Packed) (x y z_s : ℝ) (P : Packed) :
    ℝ × ℝ :=
  let a := L.deflection_angle x y z_s P
  (x - a.1, y - a.2)

/-- `ThinLens.time_delay` (base.py, lines 257-281), translated line by line. -/
noncomputable def ThinLens.time_delay {Packed : Type} (L : ThinLens Packed)
    (x y z_s : ℝ) (P : Packed) : ℝ :=
  let z_l := L.unpack_z_l P
  let d_l := L.cosmology.angular_diameter_distance z_l P
  let d_s := L.cosmology.angular_diameter_distance z_s P
  let d_ls := L.cosmology.angular_diameter_distance_z1z2 z_l z_s P
  let a := L.deflection_angle x y z_s P
  let potential := L.potential x y z_s P
  let factor := (1 + z_l) / c_Mpc_s * d_s * d_l / d_ls
  let fp := 0.5 * d_ls ^ 2 / d_s ^ 2 * (a.1 ^ 2 + a.2 ^ 2) - potential
  factor * fp * arcsec_to_rad ^ 2

/-- The error taxonomy of spec §7 for the failures relevant here. The source raises Python
`ValueError` for an invalid parametrization string; the spec's taxonomy names that case
`ConfigurationError`, and a missing dynamic parameter `MissingParameterError`. -/
inductive CausticsError
  | missingParameter
  | configuration
  deriving DecidableEq

/-- The registered parameters of an `ExternalShear` after construction: either the cartesian
pair `(gamma_1, gamma_2)` or the polar pair `(gamma, phi)`, each optionally bound. -/
inductive ShearParams
  | cartesian (gamma_1 gamma_2 : Option ℝ)
  | polar (gamma phi : Option ℝ)

/-- An `ExternalShear` instance: its registered parameters and softening length `s`. -/
structure ShearModel where
  params : ShearParams
  s : ℝ

/-- Python's `str.lower()` on the ASCII strings involved, embedded character by character. -/
def pyLower (s : String) : String := ⟨s.data.map Char.toLower⟩

/-- `ExternalShear.__init__` (external_shear.py, lines 65-108): registers the cartesian or the
polar parameters according to `parametrization.lower()`, and raises on any other string
(lines 98-101; the source raises Python `ValueError`, the spec taxonomy's
`ConfigurationError`). -/
def ExternalShear.init (parametrization : String)
    (gamma_1 gamma_2 gamma phi : Option ℝ) (s : ℝ) : Except CausticsError ShearModel :=
  if pyLower parametrization = "cartesian" then
    .ok ⟨.cartesian gamma_1 gamma_2, s⟩
  else if pyLower parametrization = "polar" then
    .ok ⟨.polar gamma phi, s⟩
  else
    .error .configuration

/-- Modelled from the spec: the `unpack` parameter-resolution step (spec §4.1) of
`parametrized.py`/`packed.py`, which are not under src/. A parameter resolves to the override
value when the bundle supplies one, else to its bound default; a dynamic parameter (no
default) with no override fails with `MissingParameterError` at resolution time. -/
def resolveParam (default override : Option ℝ) : Except CausticsError ℝ :=
  match override with
  | some v => .ok v
  | none =>
    match default with
    | some v => .ok v
    | none => .error .missingParameter

/-- `ExternalShear.convergence` (external_shear.py, lines 238-285): the `@unpack` decorator
first resolves this model's registered parameters from the override bundle (here one optional
override per registered parameter), then the body returns `torch.zeros_like(x)`, i.e.
pointwise `0`. The resolution step is modelled from the spec (see `resolveParam`). -/
def ExternalShear.convergence_call (m : ShearModel) (x y z_s : ℝ)
    (o1 o2 : Option ℝ) : Except CausticsError ℝ :=
  match m.params with
  | .cartesian d1 d2 => do
      let _ ← resolveParam d1 o1
      let _ ← resolveParam d2 o2
      pure 0
  | .polar dg dp => do
      let _ ← resolveParam dg o1
      let _ ← resolveParam dp o2
      pure 0

/-- C4: for every thin lens, coordinates, source redshift and override bundle,
`ThinLens.time_delay` returns exactly
`(1+z_l)/c · D_s·D_l/D_ls · [½·(D_ls/D_s)²·(ax²+ay²) − ψ] · arcsec_to_rad²`, where
`(ax, ay)` is the deflection angle, `ψ` the potential, and `D_l`, `D_s`, `D_ls` the
angular-diameter distances from the cosmology. -/
theorem thin_lens_time_delay_formula {Packed : Type} (L : ThinLens Packed)
    (x y z_s : ℝ) (P : Packed) :
    L.time_delay x y z_s P =
      (1 + L.unpack_z_l P) / c_Mpc_s
        * (L.cosmology.angular_diameter_distance z_s P
            * L.cosmology.angular_diameter_distance (L.unpack_z_l P) P
            / L.cosmology.angular_diameter_distance_z1z2 (L.unpack_z_l P) z_s P)
        * (1 / 2
              * (L.cosmology.angular_diameter_distance_z1z2 (L.unpack_z_l P) z_s P
                  / L.cosmology.angular_diameter_distance z_s P) ^ 2
              * ((L.deflection_angle x y z_s P).1 ^ 2 + (L.deflection_angle x y z_s P).2 ^ 2)
            - L.potential x y z_s P)
        * arcsec_to_rad ^ 2 := by
  unfold ThinLens.time_delay
  have h05 : (0.5 : ℝ) = 1 / 2 := by norm_num
  rw [h05]
  ring

/-- C5: for both the thin-lens and the thick-lens contract, `raytrace` returns exactly
`(x − ax, y − ay)` where `(ax, ay)` is the deflection angle at the same arguments. -/
theorem raytrace_is_coordinates_minus_deflection {Packed : Type}
    (L : ThinLens Packed) (T : ThickLens Packed) (x y z_s : ℝ) (P : Packed) :
    L.raytrace x y z_s P =
        (x - (L.deflection_angle x y z_s P).1, y - (L.deflection_angle x y z_s P).2)
      ∧ T.raytrace x y z_s P =
        (x - (T.deflection_angle x y z_s P).1, y - (T.deflection_angle x y z_s P).2) :=
  ⟨rfl, rfl⟩

/-- C8: an `ExternalShear` constructed with the cartesian parametrization and no bound
`gamma_1`/`gamma_2` values, whose `convergence` is then called without overrides, fails with
`MissingParameterError` at parameter-resolution time (resolution modelled from spec §4.1). -/
theorem shear_unbound_convergence_missing_parameter (x y z_s : ℝ) :
    (ExternalShear.init "cartesian" none none none none 0).bind
        (fun m => ExternalShear.convergence_call m x y z_s none none) =
      .error CausticsError.missingParameter := rfl

/-- C9: constructing an `ExternalShear` with a parametrization string whose lower-casing is
neither `"cartesian"` nor `"polar"` fails fast at construction time with the configuration
error (the source's `ValueError`, spec taxonomy `ConfigurationError`). -/
theorem shear_invalid_parametrization_fails (p : String)
    (h1 : pyLower p ≠ "cartesian") (h2 : pyLower p ≠ "polar")
    (g1 g2 g ph : Option ℝ) (s : ℝ) :
    ExternalShear.init p g1 g2 g ph s = .error CausticsError.configuration := by
  unfold ExternalShear.init
  rw [if_neg h1, if_neg h2]

/-- Witness for C9 at the concrete parametrization string `"Elliptical"`. -/
theorem shear_invalid_parametrization_fails_witness :
    pyLower "Elliptical" ≠ "cartesian" ∧ pyLower "Elliptical" ≠ "polar" ∧
      ExternalShear.init "Elliptical" none none none none 0 =
        .error CausticsError.configuration :=
  ⟨by decide, by decide,
    shear_invalid_parametrization_fails "Elliptical" (by decide) (by decide)
      none none none none 0⟩

/-- `torch.atan2(y, x)`: the angle of the point `(x, y)` in `(-π, π]`, embedded as the
complex argument of `x + y·i`. -/
noncomputable def atan2 (y x : ℝ) : ℝ := Complex.arg (x + y * Complex.I)

/-- `ExternalShear._polar_to_cartesian` (external_shear.py, lines 119-123):
`gamma_1 = gamma·cos(2φ)`, `gamma_2 = gamma·sin(2φ)`. -/
noncomputable def ExternalShear.polar_to_cartesian (gamma phi : ℝ) : ℝ × ℝ :=
  (gamma * Real.cos (2 * phi), gamma * Real.sin (2 * phi))

/-- `ExternalShear._cartesian_to_polar` (external_shear.py, lines 125-129):
`gamma = sqrt(gamma_1² + gamma_2²)`, `phi = 0.5·atan2(gamma_2, gamma_1)`. -/
noncomputable def ExternalShear.cartesian_to_polar (gamma_1 gamma_2 : ℝ) : ℝ × ℝ :=
  (Real.sqrt (gamma_1 ^ 2 + gamma_2 ^ 2), 0.5 * atan2 gamma_2 gamma_1)

/-- `ExternalShear.potential` (external_shear.py, lines 131-179):
`0.5 * gamma_1 * (x**2 - y**2) + gamma_2 * x * y`. -/
noncomputable def ExternalShear.potential (gamma_1 gamma_2 x y : ℝ) : ℝ :=
  0.5 * gamma_1 * (x ^ 2 - y ^ 2) + gamma_2 * x * y

/-- `ExternalShear.reduced_deflection_angle` (external_shear.py, lines 181-236):
`a1 = x * gamma_1 + y * gamma_2`, `a2 = x * gamma_2 - y * gamma_1`. -/
noncomputable def ExternalShear.reduced_deflection_angle (gamma_1 gamma_2 x y : ℝ) :
    ℝ × ℝ :=
  (x * gamma_1 + y * gamma_2, x * gamma_2 - y * gamma_1)

/-- The complex argument of `cos θ + i·sin θ` is `θ` reduced modulo `2π`. -/
lemma arg_cos_add_sin_I_sub_int_mul (θ : ℝ) :
    ∃ k : ℤ, Complex.arg (Real.cos θ + Real.sin θ * Complex.I) = θ - k * (2 * Real.pi) := by
  have hexp : (Real.cos θ : ℂ) + (Real.sin θ : ℂ) * Complex.I
      = Complex.exp (θ * Complex.I) := by
    rw [Complex.exp_mul_I, Complex.ofReal_cos, Complex.ofReal_sin]
  rw [hexp, Complex.arg_exp_mul_I]
  refine ⟨toIocDiv (mul_pos two_pos Real.pi_pos) (-Real.pi) θ, ?_⟩
  have hsub := self_sub_toIocMod (mul_pos two_pos Real.pi_pos) (-Real.pi) θ
  have : toIocMod (mul_pos two_pos Real.pi_pos) (-Real.pi) θ
      = θ - toIocDiv (mul_pos two_pos Real.pi_pos) (-Real.pi) θ • (2 * Real.pi) := by
    linarith [hsub]
  rw [this, zsmul_eq_mul]

/-- C6: the external-shear potential is `½γ₁(x²−y²) + γ₂xy` and the returned deflection
angle `(xγ₁+yγ₂, xγ₂−yγ₁)` is exactly its gradient: the first component is the x-derivative
of the potential and the second its y-derivative. -/
theorem external_shear_deflection_is_potential_gradient (gamma_1 gamma_2 x y : ℝ) :
    ExternalShear.potential gamma_1 gamma_2 x y
        = 1 / 2 * gamma_1 * (x ^ 2 - y ^ 2) + gamma_2 * x * y
    ∧ HasDerivAt (fun t => ExternalShear.potential gamma_1 gamma_2 t y)
        (ExternalShear.reduced_deflection_angle gamma_1 gamma_2 x y).1 x
    ∧ HasDerivAt (fun t => ExternalShear.potential gamma_1 gamma_2 x t)
        (ExternalShear.reduced_deflection_angle gamma_1 gamma_2 x y).2 y := by
  refine ⟨by unfold ExternalShear.potential; norm_num, ?_, ?_⟩
  · have hp : HasDerivAt (fun t : ℝ => t ^ 2) (2 * x) x := by
      simpa using hasDerivAt_pow 2 x
    have hb : HasDerivAt (fun t : ℝ => gamma_2 * t * y) (gamma_2 * y) x := by
      simpa using (((hasDerivAt_id x).const_mul gamma_2).mul_const y)
    have h1 := ((hp.sub_const (y ^ 2)).const_mul (0.5 * gamma_1)).add hb
    have hfun : (fun t : ℝ => ExternalShear.potential gamma_1 gamma_2 t y)
        = fun t : ℝ => 0.5 * gamma_1 * (t ^ 2 - y ^ 2) + gamma_2 * t * y := rfl
    rw [hfun]
    convert h1 using 1
    unfold ExternalShear.reduced_deflection_angle
    norm_num
    ring
  · have hp : HasDerivAt (fun t : ℝ => t ^ 2) (2 * y) y := by
      simpa using hasDerivAt_pow 2 y
    have ha : HasDerivAt (fun t : ℝ => x ^ 2 - t ^ 2) (-(2 * y)) y := by
      simpa using hp.const_sub (x ^ 2)
    have hb : HasDerivAt (fun t : ℝ => gamma_2 * x * t) (gamma_2 * x) y := by
      simpa using ((hasDerivAt_id y).const_mul (gamma_2 * x))
    have h1 := (ha.const_mul (0.5 * gamma_1)).add hb
    have hfun : (fun t : ℝ => ExternalShear.potential gamma_1 gamma_2 x t)
        = fun t : ℝ => 0.5 * gamma_1 * (x ^ 2 - t ^ 2) + gamma_2 * x * t := rfl
    rw [hfun]
    convert h1 using 1
    unfold ExternalShear.reduced_deflection_angle
    norm_num
    ring

/-- C7: for shear magnitude `gamma > 0` and any angle `phi`, the polar→cartesian→polar
round trip recovers the magnitude exactly and the angle up to an integer multiple of `π`. -/
theorem shear_polar_cartesian_roundtrip (gamma phi : ℝ) (hg : 0 < gamma) :
    (ExternalShear.cartesian_to_polar (ExternalShear.polar_to_cartesian gamma phi).1
        (ExternalShear.polar_to_cartesian gamma phi).2).1 = gamma
    ∧ ∃ k : ℤ,
      (ExternalShear.cartesian_to_polar (ExternalShear.polar_to_cartesian gamma phi).1
          (ExternalShear.polar_to_cartesian gamma phi).2).2 = phi + k * Real.pi := by
  constructor
  · show Real.sqrt ((gamma * Real.cos (2 * phi)) ^ 2 + (gamma * Real.sin (2 * phi)) ^ 2)
        = gamma
    have hsum : (gamma * Real.cos (2 * phi)) ^ 2 + (gamma * Real.sin (2 * phi)) ^ 2
        = gamma ^ 2 := by
      linear_combination gamma ^ 2 * Real.sin_sq_add_cos_sq (2 * phi)
    rw [hsum, Real.sqrt_sq hg.le]
  · show ∃ k : ℤ,
        0.5 * atan2 (gamma * Real.sin (2 * phi)) (gamma * Real.cos (2 * phi))
          = phi + k * Real.pi
    unfold atan2
    have hmul : ((gamma * Real.cos (2 * phi) : ℝ) : ℂ)
          + ((gamma * Real.sin (2 * phi) : ℝ) : ℂ) * Complex.I
        = (gamma : ℂ) * ((Real.cos (2 * phi) : ℝ) + (Real.sin (2 * phi) : ℝ) * Complex.I) := by
      push_cast
      ring
    rw [hmul, Complex.arg_real_mul _ hg]
    obtain ⟨k, hk⟩ := arg_cos_add_sin_I_sub_int_mul (2 * phi)
    refine ⟨-k, ?_⟩
    rw [hk]
    push_cast
    ring

/-- Witness for C7 at `gamma = 1`, `phi = 0`. -/
theorem shear_polar_cartesian_roundtrip_witness :
    (0:ℝ) < 1
    ∧ ((ExternalShear.cartesian_to_polar (ExternalShear.polar_to_cartesian 1 0).1
          (ExternalShear.polar_to_cartesian 1 0).2).1 = 1
        ∧ ∃ k : ℤ,
          (ExternalShear.cartesian_to_polar (ExternalShear.polar_to_cartesian 1 0).1
              (ExternalShear.polar_to_cartesian 1 0).2).2 = 0 + k * Real.pi) :=
  ⟨by norm_num, shear_polar_cartesian_roundtrip 1 0 (by norm_num)⟩

/-- C10: `_cartesian_to_polar` always returns the non-negative magnitude
`sqrt(γ₁² + γ₂²)` and an angle `½·atan2(γ₂, γ₁)` canonically reduced to `(-π/2, π/2]`. -/
theorem cartesian_to_polar_canonical_range (gamma_1 gamma_2 : ℝ) :
    (ExternalShear.cartesian_to_polar gamma_1 gamma_2).1
        = Real.sqrt (gamma_1 ^ 2 + gamma_2 ^ 2)
    ∧ 0 ≤ (ExternalShear.cartesian_to_polar gamma_1 gamma_2).1
    ∧ (ExternalShear.cartesian_to_polar gamma_1 gamma_2).2 = 0.5 * atan2 gamma_2 gamma_1
    ∧ (ExternalShear.cartesian_to_polar gamma_1 gamma_2).2
        ∈ Set.Ioc (-(Real.pi / 2)) (Real.pi / 2) := by
  refine ⟨rfl, Real.sqrt_nonneg _, rfl, ?_⟩
  have h := Complex.arg_mem_Ioc (↑gamma_1 + ↑gamma_2 * Complex.I)
  rw [Set.mem_Ioc] at h
  rw [Set.mem_Ioc]
  unfold ExternalShear.cartesian_to_polar atan2
  constructor
  · simp only
    linarith [h.1]
  · simp only
    linarith [h.2]

namespace NFW

/-- `torch.arctanh`, the inverse hyperbolic tangent: `artanh y = ½·log((1+y)/(1−y))` on
`(-1, 1)` (Mathlib 4.14 has no `Real.artanh`). -/
noncomputable def artanh (y : ℝ) : ℝ := Real.log ((1 + y) / (1 - y)) / 2

/-- `NFW._f` (nfw.py, lines 50-61), with `torch.where` modelled by its value semantics:
`x > 1` branch `1 − 2/√(x²−1)·arctan√((x−1)/(x+1))`, `x < 1` branch
`1 − 2/√(1−x²)·arctanh√((1−x)/(1+x))`, and `0.0` at `x = 1`. -/
noncomputable def f (x : ℝ) : ℝ :=
  if 1 < x then 1 - 2 / Real.sqrt (x ^ 2 - 1) * Real.arctan (Real.sqrt ((x - 1) / (x + 1)))
  else if x < 1 then 1 - 2 / Real.sqrt (1 - x ^ 2) * artanh (Real.sqrt ((1 - x) / (1 + x)))
  else 0

/-- `NFW._g` (nfw.py, lines 63-72): `term_1 = ½·log(x/2)²` plus the branched `term_2`
(`2·arctan²` above 1, `−2·arctanh²` below 1, `0.0` at `x = 1`). -/
noncomputable def g (x : ℝ) : ℝ :=
  1 / 2 * Real.log (x / 2) ^ 2 +
    (if 1 < x then 2 * Real.arctan (Real.sqrt ((x - 1) / (x + 1))) ^ 2
     else if x < 1 then -2 * artanh (Real.sqrt ((1 - x) / (1 + x))) ^ 2
     else 0)

/-- `NFW._h` (nfw.py, lines 74-86): `term_1 = log(x/2)` plus the branched `term_2`
(`2/√(x²−1)·arctan` above 1, `2/√(1−x²)·arctanh` below 1, `1.0` at `x = 1`). -/
noncomputable def h (x : ℝ) : ℝ :=
  Real.log (x / 2) +
    (if 1 < x then 2 / Real.sqrt (x ^ 2 - 1) * Real.arctan (Real.sqrt ((x - 1) / (x + 1)))
     else if x < 1 then 2 / Real.sqrt (1 - x ^ 2) * artanh (Real.sqrt ((1 - x) / (1 + x)))
     else 1)

lemma f_of_gt {x : ℝ} (hx : 1 < x) :
    f x = 1 - 2 / Real.sqrt (x ^ 2 - 1) * Real.arctan (Real.sqrt ((x - 1) / (x + 1))) := by
  unfold f
  rw [if_pos hx]

lemma f_of_lt {x : ℝ} (hx : x < 1) :
    f x = 1 - 2 / Real.sqrt (1 - x ^ 2) * artanh (Real.sqrt ((1 - x) / (1 + x))) := by
  unfold f
  rw [if_neg (by linarith), if_pos hx]

lemma f_of_one : f 1 = 0 := by
  unfold f
  norm_num

lemma g_of_gt {x : ℝ} (hx : 1 < x) :
    g x = 1 / 2 * Real.log (x / 2) ^ 2
        + 2 * Real.arctan (Real.sqrt ((x - 1) / (x + 1))) ^ 2 := by
  unfold g
  rw [if_pos hx]

lemma g_of_lt {x : ℝ} (hx : x < 1) :
    g x = 1 / 2 * Real.log (x / 2) ^ 2
        - 2 * artanh (Real.sqrt ((1 - x) / (1 + x))) ^ 2 := by
  unfold g
  rw [if_neg (by linarith), if_pos hx]
  ring

lemma g_of_one : g 1 = 1 / 2 * Real.log (1 / 2) ^ 2 := by
  unfold g
  norm_num

lemma h_of_gt {x : ℝ} (hx : 1 < x) :
    h x = Real.log (x / 2)
        + 2 / Real.sqrt (x ^ 2 - 1) * Real.arctan (Real.sqrt ((x - 1) / (x + 1))) := by
  unfold h
  rw [if_pos hx]

lemma h_of_lt {x : ℝ} (hx : x < 1) :
    h x = Real.log (x / 2)
        + 2 / Real.sqrt (1 - x ^ 2) * artanh (Real.sqrt ((1 - x) / (1 + x))) := by
  unfold h
  rw [if_neg (by linarith), if_pos hx]

lemma h_of_one : h 1 = Real.log (1 / 2) + 1 := by
  unfold h
  norm_num

end NFW

/-- torch floating-point division: a zero denominator produces NaN or ±Inf rather than a real
value, modelled here by `none`. -/
noncomputable def tdiv (a b : ℝ) : Option ℝ := if b = 0 then none else some (a / b)

/-- The dimensionless core of `NFW.kappa` (nfw.py, lines 122-135): the returned value is
`2 * kappa_s * self._f(x) / (x**2 - 1)` at the dimensionless radius `x = ξ/r_s`, with the
torch division tracked by `tdiv`. The division sits outside the `torch.where` branch guards
of `_f`. -/
noncomputable def NFW.kappa_dimensionless (kappa_s x : ℝ) : Option ℝ :=
  tdiv (2 * kappa_s * NFW.f x) (x ^ 2 - 1)

/-- C3: at the removable singularity `x = 1` the convergence of `NFW.kappa` is an unguarded
`0/0`: the numerator `2·κ_s·_f(1)` is `0`, the denominator `x²−1` is `0`, and the torch
division therefore emits NaN (`none`), contradicting the claimed branch guard. -/
theorem nfw_kappa_at_one_is_unguarded_zero_div_zero (kappa_s : ℝ) :
    2 * kappa_s * NFW.f 1 = 0 ∧ ((1 : ℝ) ^ 2 - 1) = 0
      ∧ NFW.kappa_dimensionless kappa_s 1 = none := by
  refine ⟨by rw [NFW.f_of_one]; ring, by norm_num, ?_⟩
  unfold NFW.kappa_dimensionless tdiv
  rw [if_pos (by norm_num)]

namespace NFW

lemma sqrt_mul_eq_hi {x : ℝ} (hx : 1 < x) :
    Real.sqrt ((x - 1) / (x + 1)) * (x + 1) = Real.sqrt (x ^ 2 - 1) := by
  have hne : x + 1 ≠ 0 := by linarith
  have h1 : (0:ℝ) ≤ (x - 1) / (x + 1) := le_of_lt (div_pos (by linarith) (by linarith))
  have key : (x - 1) / (x + 1) * (x + 1) ^ 2 = x ^ 2 - 1 := by
    field_simp
    ring
  calc Real.sqrt ((x - 1) / (x + 1)) * (x + 1)
      = Real.sqrt ((x - 1) / (x + 1)) * Real.sqrt ((x + 1) ^ 2) := by
        rw [Real.sqrt_sq (by linarith : (0:ℝ) ≤ x + 1)]
    _ = Real.sqrt ((x - 1) / (x + 1) * (x + 1) ^ 2) := (Real.sqrt_mul h1 _).symm
    _ = Real.sqrt (x ^ 2 - 1) := by rw [key]

lemma sqrt_mul_eq_lo {x : ℝ} (hx0 : -1 < x) (hx : x < 1) :
    Real.sqrt ((1 - x) / (1 + x)) * (1 + x) = Real.sqrt (1 - x ^ 2) := by
  have hne : 1 + x ≠ 0 := by linarith
  have h1 : (0:ℝ) ≤ (1 - x) / (1 + x) := le_of_lt (div_pos (by linarith) (by linarith))
  have key : (1 - x) / (1 + x) * (1 + x) ^ 2 = 1 - x ^ 2 := by
    field_simp
    ring
  calc Real.sqrt ((1 - x) / (1 + x)) * (1 + x)
      = Real.sqrt ((1 - x) / (1 + x)) * Real.sqrt ((1 + x) ^ 2) := by
        rw [Real.sqrt_sq (by linarith : (0:ℝ) ≤ 1 + x)]
    _ = Real.sqrt ((1 - x) / (1 + x) * (1 + x) ^ 2) := (Real.sqrt_mul h1 _).symm
    _ = Real.sqrt (1 - x ^ 2) := by rw [key]

lemma hasDerivAt_ratio_hi {x : ℝ} (hne : x + 1 ≠ 0) :
    HasDerivAt (fun t : ℝ => (t - 1) / (t + 1)) (2 / (x + 1) ^ 2) x := by
  have h1 : HasDerivAt (fun t : ℝ => t - 1) 1 x := (hasDerivAt_id x).sub_const 1
  have h2 : HasDerivAt (fun t : ℝ => t + 1) 1 x := (hasDerivAt_id x).add_const 1
  have hd := h1.div h2 hne
  convert hd using 1
  field_simp
  ring

lemma hasDerivAt_ratio_lo {x : ℝ} (hne : 1 + x ≠ 0) :
    HasDerivAt (fun t : ℝ => (1 - t) / (1 + t)) (-2 / (1 + x) ^ 2) x := by
  have h1 : HasDerivAt (fun t : ℝ => 1 - t) (-1) x := by
    simpa using (hasDerivAt_id x).const_sub 1
  have h2 : HasDerivAt (fun t : ℝ => 1 + t) 1 x := by
    simpa using (hasDerivAt_id x).const_add 1
  have hd := h1.div h2 hne
  convert hd using 1
  field_simp
  ring

lemma hasDerivAt_u_hi {x : ℝ} (hx : 1 < x) :
    HasDerivAt (fun t : ℝ => Real.sqrt ((t - 1) / (t + 1)))
      (1 / ((x + 1) ^ 2 * Real.sqrt ((x - 1) / (x + 1)))) x := by
  have hv : (0:ℝ) < (x - 1) / (x + 1) := div_pos (by linarith) (by linarith)
  have hu0 : 0 < Real.sqrt ((x - 1) / (x + 1)) := Real.sqrt_pos.mpr hv
  have hd := (hasDerivAt_ratio_hi (by linarith : x + 1 ≠ 0)).sqrt hv.ne'
  convert hd using 1
  have h1 : x + 1 ≠ 0 := by linarith
  have hD1 : (x + 1) ^ 2 * Real.sqrt ((x - 1) / (x + 1)) ≠ 0 :=
    mul_ne_zero (pow_ne_zero 2 h1) hu0.ne'
  have hD2 : (x + 1) ^ 2 * (2 * Real.sqrt ((x - 1) / (x + 1))) ≠ 0 :=
    mul_ne_zero (pow_ne_zero 2 h1) (mul_ne_zero two_ne_zero hu0.ne')
  rw [div_div, div_eq_div_iff hD1 hD2]
  ring

lemma hasDerivAt_u_lo {x : ℝ} (hx0 : -1 < x) (hx : x < 1) :
    HasDerivAt (fun t : ℝ => Real.sqrt ((1 - t) / (1 + t)))
      (-(1 / ((1 + x) ^ 2 * Real.sqrt ((1 - x) / (1 + x))))) x := by
  have hv : (0:ℝ) < (1 - x) / (1 + x) := div_pos (by linarith) (by linarith)
  have hu0 : 0 < Real.sqrt ((1 - x) / (1 + x)) := Real.sqrt_pos.mpr hv
  have hd := (hasDerivAt_ratio_lo (by linarith : 1 + x ≠ 0)).sqrt hv.ne'
  convert hd using 1
  have h1 : 1 + x ≠ 0 := by linarith
  have hD1 : (1 + x) ^ 2 * Real.sqrt ((1 - x) / (1 + x)) ≠ 0 :=
    mul_ne_zero (pow_ne_zero 2 h1) hu0.ne'
  have hD2 : (1 + x) ^ 2 * (2 * Real.sqrt ((1 - x) / (1 + x))) ≠ 0 :=
    mul_ne_zero (pow_ne_zero 2 h1) (mul_ne_zero two_ne_zero hu0.ne')
  rw [div_div, neg_div]
  congr 1
  rw [div_eq_div_iff hD1 hD2]
  ring

lemma hasDerivAt_artanh {y : ℝ} (h1 : -1 < y) (h2 : y < 1) :
    HasDerivAt artanh (1 / (1 - y ^ 2)) y := by
  have ha : (1:ℝ) + y ≠ 0 := by linarith
  have hb : (1:ℝ) - y ≠ 0 := by linarith
  have hq : (0:ℝ) < (1 + y) / (1 - y) := div_pos (by linarith) (by linarith)
  have hd1 : HasDerivAt (fun t : ℝ => (1 + t) / (1 - t)) (2 / (1 - y) ^ 2) y := by
    have hA : HasDerivAt (fun t : ℝ => 1 + t) 1 y := by
      simpa using (hasDerivAt_id y).const_add 1
    have hB : HasDerivAt (fun t : ℝ => 1 - t) (-1) y := by
      simpa using (hasDerivAt_id y).const_sub 1
    have hd := hA.div hB hb
    convert hd using 1
    field_simp
    ring
  have hd2 := (hd1.log hq.ne').div_const 2
  have hfun : artanh = fun t : ℝ => Real.log ((1 + t) / (1 - t)) / 2 := rfl
  rw [hfun]
  convert hd2 using 1
  have hc : (1:ℝ) - y ^ 2 ≠ 0 := by nlinarith
  field_simp
  ring

lemma hasDerivAt_arctan_u_hi {x : ℝ} (hx : 1 < x) :
    HasDerivAt (fun t : ℝ => Real.arctan (Real.sqrt ((t - 1) / (t + 1))))
      (1 / (2 * x * Real.sqrt (x ^ 2 - 1))) x := by
  have hxne : x ≠ 0 := by positivity
  have h1 : x + 1 ≠ 0 := by linarith
  have hv : (0:ℝ) < (x - 1) / (x + 1) := div_pos (by linarith) (by linarith)
  have hu0 : 0 < Real.sqrt ((x - 1) / (x + 1)) := Real.sqrt_pos.mpr hv
  have hu2 : Real.sqrt ((x - 1) / (x + 1)) ^ 2 = (x - 1) / (x + 1) := Real.sq_sqrt hv.le
  have hone : 1 + Real.sqrt ((x - 1) / (x + 1)) ^ 2 = 2 * x / (x + 1) := by
    rw [hu2]
    field_simp
    ring
  have hd := (hasDerivAt_u_hi hx).arctan
  convert hd using 1
  rw [hone, ← sqrt_mul_eq_hi hx]
  set u := Real.sqrt ((x - 1) / (x + 1)) with hu_def
  have hu : u ≠ 0 := hu0.ne'
  field_simp
  ring

lemma hasDerivAt_artanh_u_lo {x : ℝ} (h0 : 0 < x) (hx : x < 1) :
    HasDerivAt (fun t : ℝ => artanh (Real.sqrt ((1 - t) / (1 + t))))
      (-(1 / (2 * x * Real.sqrt (1 - x ^ 2)))) x := by
  have hxne : x ≠ 0 := h0.ne'
  have h1 : 1 + x ≠ 0 := by linarith
  have hv : (0:ℝ) < (1 - x) / (1 + x) := div_pos (by linarith) (by linarith)
  have hv1 : (1 - x) / (1 + x) < 1 := by
    rw [div_lt_one (by linarith)]
    linarith
  have hu0 : 0 < Real.sqrt ((1 - x) / (1 + x)) := Real.sqrt_pos.mpr hv
  have hu2 : Real.sqrt ((1 - x) / (1 + x)) ^ 2 = (1 - x) / (1 + x) := Real.sq_sqrt hv.le
  have hu1 : Real.sqrt ((1 - x) / (1 + x)) < 1 := by nlinarith [hu2, hu0]
  have hone : 1 - Real.sqrt ((1 - x) / (1 + x)) ^ 2 = 2 * x / (1 + x) := by
    rw [hu2]
    field_simp
    ring
  have hd := (hasDerivAt_artanh (by linarith : -1 < Real.sqrt ((1 - x) / (1 + x))) hu1).comp
    x (hasDerivAt_u_lo (by linarith) hx)
  simp only [Function.comp_def] at hd
  convert hd using 1
  rw [hone, ← sqrt_mul_eq_lo (by linarith) hx]
  set u := Real.sqrt ((1 - x) / (1 + x)) with hu_def
  have hu : u ≠ 0 := hu0.ne'
  field_simp
  ring

lemma hasDerivAt_half_log_sq {x : ℝ} (h0 : 0 < x) :
    HasDerivAt (fun t : ℝ => 1 / 2 * Real.log (t / 2) ^ 2) (Real.log (x / 2) / x) x := by
  have hd : HasDerivAt (fun t : ℝ => t / 2) (1 / 2 : ℝ) x := by
    simpa using (hasDerivAt_id x).div_const 2
  have hl := (hd.log (by positivity : x / 2 ≠ 0)).pow 2
  have hc := hl.const_mul (1 / 2 : ℝ)
  convert hc using 1
  have hxne : x ≠ 0 := h0.ne'
  field_simp

lemma hasDerivAt_log_half {x : ℝ} (h0 : 0 < x) :
    HasDerivAt (fun t : ℝ => Real.log (t / 2)) (1 / x) x := by
  have hd : HasDerivAt (fun t : ℝ => t / 2) (1 / 2 : ℝ) x := by
    simpa using (hasDerivAt_id x).div_const 2
  have hl := hd.log (by positivity : x / 2 ≠ 0)
  convert hl using 1
  have hxne : x ≠ 0 := h0.ne'
  field_simp

lemma g_hasDerivAt_gt {x : ℝ} (hx : 1 < x) : HasDerivAt g (h x / x) x := by
  have h0 : (0:ℝ) < x := by linarith
  have hxne : x ≠ 0 := h0.ne'
  have hv : (0:ℝ) < (x - 1) / (x + 1) := div_pos (by linarith) (by linarith)
  have hu0 : 0 < Real.sqrt ((x - 1) / (x + 1)) := Real.sqrt_pos.mpr hv
  have hs0 : 0 < Real.sqrt (x ^ 2 - 1) := Real.sqrt_pos.mpr (by nlinarith)
  have hB := ((hasDerivAt_arctan_u_hi hx).pow 2).const_mul 2
  have hsum := (hasDerivAt_half_log_sq h0).add hB
  have hgev : g =ᶠ[nhds x] fun t => 1 / 2 * Real.log (t / 2) ^ 2
      + 2 * Real.arctan (Real.sqrt ((t - 1) / (t + 1))) ^ 2 := by
    filter_upwards [Ioi_mem_nhds hx] with t ht
    exact g_of_gt ht
  have hg := hsum.congr_of_eventuallyEq hgev
  convert hg using 1
  rw [h_of_gt hx]
  field_simp
  ring

lemma g_hasDerivAt_lt {x : ℝ} (h0 : 0 < x) (hx : x < 1) : HasDerivAt g (h x / x) x := by
  have hxne : x ≠ 0 := h0.ne'
  have hv : (0:ℝ) < (1 - x) / (1 + x) := div_pos (by linarith) (by linarith)
  have hu0 : 0 < Real.sqrt ((1 - x) / (1 + x)) := Real.sqrt_pos.mpr hv
  have hs0 : 0 < Real.sqrt (1 - x ^ 2) := Real.sqrt_pos.mpr (by nlinarith)
  have hB := ((hasDerivAt_artanh_u_lo h0 hx).pow 2).const_mul 2
  have hsum := (hasDerivAt_half_log_sq h0).sub hB
  have hgev : g =ᶠ[nhds x] fun t => 1 / 2 * Real.log (t / 2) ^ 2
      - 2 * artanh (Real.sqrt ((1 - t) / (1 + t))) ^ 2 := by
    filter_upwards [Iio_mem_nhds hx] with t ht
    exact g_of_lt ht
  have hg := hsum.congr_of_eventuallyEq hgev
  convert hg using 1
  rw [h_of_lt hx]
  field_simp
  ring

lemma hasDerivAt_two_div_sqrt_hi {x : ℝ} (hx : 1 < x) :
    HasDerivAt (fun t : ℝ => 2 / Real.sqrt (t ^ 2 - 1))
      (-(2 * x) / (Real.sqrt (x ^ 2 - 1) * (x ^ 2 - 1))) x := by
  have hpos : (0:ℝ) < x ^ 2 - 1 := by nlinarith
  have hs0 : 0 < Real.sqrt (x ^ 2 - 1) := Real.sqrt_pos.mpr hpos
  have hs2 : Real.sqrt (x ^ 2 - 1) ^ 2 = x ^ 2 - 1 := Real.sq_sqrt hpos.le
  have hin : HasDerivAt (fun t : ℝ => t ^ 2 - 1) (2 * x) x := by
    simpa using (hasDerivAt_pow 2 x).sub_const 1
  have hs := hin.sqrt hpos.ne'
  have hd := (hasDerivAt_const x (2:ℝ)).div hs hs0.ne'
  convert hd using 1
  rw [hs2]
  set s := Real.sqrt (x ^ 2 - 1) with hs_def
  have hsne : s ≠ 0 := hs0.ne'
  field_simp
  ring

lemma hasDerivAt_two_div_sqrt_lo {x : ℝ} (h0 : 0 < x) (hx : x < 1) :
    HasDerivAt (fun t : ℝ => 2 / Real.sqrt (1 - t ^ 2))
      (2 * x / (Real.sqrt (1 - x ^ 2) * (1 - x ^ 2))) x := by
  have hpos : (0:ℝ) < 1 - x ^ 2 := by nlinarith
  have hs0 : 0 < Real.sqrt (1 - x ^ 2) := Real.sqrt_pos.mpr hpos
  have hs2 : Real.sqrt (1 - x ^ 2) ^ 2 = 1 - x ^ 2 := Real.sq_sqrt hpos.le
  have hin : HasDerivAt (fun t : ℝ => 1 - t ^ 2) (-(2 * x)) x := by
    simpa using (hasDerivAt_pow 2 x).const_sub 1
  have hs := hin.sqrt hpos.ne'
  have hd := (hasDerivAt_const x (2:ℝ)).div hs hs0.ne'
  convert hd using 1
  rw [hs2]
  set s := Real.sqrt (1 - x ^ 2) with hs_def
  have hsne : s ≠ 0 := hs0.ne'
  field_simp
  ring

lemma h_hasDerivAt_gt {x : ℝ} (hx : 1 < x) :
    HasDerivAt h (x * f x / (x ^ 2 - 1)) x := by
  have h0 : (0:ℝ) < x := by linarith
  have hxne : x ≠ 0 := h0.ne'
  have hpos : (0:ℝ) < x ^ 2 - 1 := by nlinarith
  have hs0 : 0 < Real.sqrt (x ^ 2 - 1) := Real.sqrt_pos.mpr hpos
  have hss : Real.sqrt (x ^ 2 - 1) * Real.sqrt (x ^ 2 - 1) = x ^ 2 - 1 :=
    Real.mul_self_sqrt hpos.le
  have hprod := (hasDerivAt_two_div_sqrt_hi hx).mul (hasDerivAt_arctan_u_hi hx)
  have hsum := (hasDerivAt_log_half h0).add hprod
  have hev : h =ᶠ[nhds x] fun t => Real.log (t / 2)
      + 2 / Real.sqrt (t ^ 2 - 1) * Real.arctan (Real.sqrt ((t - 1) / (t + 1))) := by
    filter_upwards [Ioi_mem_nhds hx] with t ht
    exact h_of_gt ht
  have hd := hsum.congr_of_eventuallyEq hev
  convert hd using 1
  rw [f_of_gt hx]
  have e1 : (2:ℝ) / Real.sqrt (x ^ 2 - 1) * (1 / (2 * x * Real.sqrt (x ^ 2 - 1)))
      = 1 / (x * (x ^ 2 - 1)) := by
    have e2 : (2:ℝ) / Real.sqrt (x ^ 2 - 1) * (1 / (2 * x * Real.sqrt (x ^ 2 - 1)))
        = 2 / (2 * x * (Real.sqrt (x ^ 2 - 1) * Real.sqrt (x ^ 2 - 1))) := by
      ring
    rw [e2, hss]
    rw [div_eq_div_iff (by positivity) (by positivity)]
    ring
  rw [e1]
  set s := Real.sqrt (x ^ 2 - 1) with hs_def
  have hsne : s ≠ 0 := hs0.ne'
  have hne2 : x ^ 2 - 1 ≠ 0 := hpos.ne'
  field_simp
  ring

lemma h_hasDerivAt_lt {x : ℝ} (h0 : 0 < x) (hx : x < 1) :
    HasDerivAt h (x * f x / (x ^ 2 - 1)) x := by
  have hxne : x ≠ 0 := h0.ne'
  have hpos : (0:ℝ) < 1 - x ^ 2 := by nlinarith
  have hs0 : 0 < Real.sqrt (1 - x ^ 2) := Real.sqrt_pos.mpr hpos
  have hss : Real.sqrt (1 - x ^ 2) * Real.sqrt (1 - x ^ 2) = 1 - x ^ 2 :=
    Real.mul_self_sqrt hpos.le
  have hprod := (hasDerivAt_two_div_sqrt_lo h0 hx).mul (hasDerivAt_artanh_u_lo h0 hx)
  have hsum := (hasDerivAt_log_half h0).add hprod
  have hev : h =ᶠ[nhds x] fun t => Real.log (t / 2)
      + 2 / Real.sqrt (1 - t ^ 2) * artanh (Real.sqrt ((1 - t) / (1 + t))) := by
    filter_upwards [Iio_mem_nhds hx] with t ht
    exact h_of_lt ht
  have hd := hsum.congr_of_eventuallyEq hev
  convert hd using 1
  rw [f_of_lt hx]
  have e1 : (2:ℝ) / Real.sqrt (1 - x ^ 2) * -(1 / (2 * x * Real.sqrt (1 - x ^ 2)))
      = -(1 / (x * (1 - x ^ 2))) := by
    have e2 : (2:ℝ) / Real.sqrt (1 - x ^ 2) * -(1 / (2 * x * Real.sqrt (1 - x ^ 2)))
        = -(2 / (2 * x * (Real.sqrt (1 - x ^ 2) * Real.sqrt (1 - x ^ 2)))) := by
      ring
    rw [e2, hss]
    congr 1
    rw [div_eq_div_iff (by positivity) (by positivity)]
    ring
  rw [e1]
  set s := Real.sqrt (1 - x ^ 2) with hs_def
  have hsne : s ≠ 0 := hs0.ne'
  have hne2 : x ^ 2 - 1 ≠ 0 := by nlinarith
  have hne3 : 1 - x ^ 2 ≠ 0 := hpos.ne'
  field_simp
  ring

lemma artanh_zero : artanh 0 = 0 := by
  unfold artanh
  norm_num

lemma tendsto_arctan_div_self :
    Tendsto (fun y : ℝ => Real.arctan y / y) (nhdsWithin 0 {(0:ℝ)}ᶜ) (nhds 1) := by
  have hd := Real.hasDerivAt_arctan 0
  have h1 : (1 : ℝ) / (1 + 0 ^ 2) = 1 := by norm_num
  rw [h1] at hd
  refine (hasDerivAt_iff_tendsto_slope.mp hd).congr fun y => ?_
  rw [slope_def_field, Real.arctan_zero, sub_zero, sub_zero]

lemma tendsto_artanh_div_self :
    Tendsto (fun y : ℝ => artanh y / y) (nhdsWithin 0 {(0:ℝ)}ᶜ) (nhds 1) := by
  have hd := hasDerivAt_artanh (by norm_num : (-1:ℝ) < 0) (by norm_num : (0:ℝ) < 1)
  have h1 : (1 : ℝ) / (1 - 0 ^ 2) = 1 := by norm_num
  rw [h1] at hd
  refine (hasDerivAt_iff_tendsto_slope.mp hd).congr fun y => ?_
  rw [slope_def_field, artanh_zero, sub_zero, sub_zero]

lemma tendsto_u_hi_zero :
    Tendsto (fun x : ℝ => Real.sqrt ((x - 1) / (x + 1))) (nhdsWithin 1 (Ioi 1))
      (nhdsWithin 0 {(0:ℝ)}ᶜ) := by
  rw [tendsto_nhdsWithin_iff]
  constructor
  · have hratio : ContinuousAt (fun x : ℝ => (x - 1) / (x + 1)) 1 :=
      ContinuousAt.div (by fun_prop) (by fun_prop) (by norm_num)
    have hc : ContinuousAt (fun x : ℝ => Real.sqrt ((x - 1) / (x + 1))) 1 :=
      Real.continuous_sqrt.continuousAt.comp hratio
    have ht : Tendsto (fun x : ℝ => Real.sqrt ((x - 1) / (x + 1))) (nhdsWithin 1 (Ioi 1))
        (nhds (Real.sqrt (((1:ℝ) - 1) / (1 + 1)))) := hc.tendsto.mono_left nhdsWithin_le_nhds
    have hval : Real.sqrt (((1:ℝ) - 1) / (1 + 1)) = 0 := by norm_num
    rwa [hval] at ht
  · filter_upwards [self_mem_nhdsWithin] with x hx
    have hx1 : 1 < x := hx
    have hv : 0 < (x - 1) / (x + 1) := div_pos (by linarith) (by linarith)
    exact (Real.sqrt_pos.mpr hv).ne'

lemma tendsto_u_lo_zero :
    Tendsto (fun x : ℝ => Real.sqrt ((1 - x) / (1 + x))) (nhdsWithin 1 (Iio 1))
      (nhdsWithin 0 {(0:ℝ)}ᶜ) := by
  rw [tendsto_nhdsWithin_iff]
  constructor
  · have hratio : ContinuousAt (fun x : ℝ => (1 - x) / (1 + x)) 1 :=
      ContinuousAt.div (by fun_prop) (by fun_prop) (by norm_num)
    have hc : ContinuousAt (fun x : ℝ => Real.sqrt ((1 - x) / (1 + x))) 1 :=
      Real.continuous_sqrt.continuousAt.comp hratio
    have ht : Tendsto (fun x : ℝ => Real.sqrt ((1 - x) / (1 + x))) (nhdsWithin 1 (Iio 1))
        (nhds (Real.sqrt ((1 - (1:ℝ)) / (1 + 1)))) := hc.tendsto.mono_left nhdsWithin_le_nhds
    have hval : Real.sqrt ((1 - (1:ℝ)) / (1 + 1)) = 0 := by norm_num
    rwa [hval] at ht
  · filter_upwards [Ioo_mem_nhdsWithin_Iio (show (1:ℝ) ∈ Ioc 0 1 by norm_num)] with x hx
    have hv : 0 < (1 - x) / (1 + x) := div_pos (by linarith [hx.2]) (by linarith [hx.1])
    exact (Real.sqrt_pos.mpr hv).ne'

lemma tendsto_T_hi :
    Tendsto (fun x : ℝ => 2 / Real.sqrt (x ^ 2 - 1)
        * Real.arctan (Real.sqrt ((x - 1) / (x + 1)))) (nhdsWithin 1 (Ioi 1)) (nhds 1) := by
  have hA : Tendsto (fun x : ℝ =>
        Real.arctan (Real.sqrt ((x - 1) / (x + 1))) / Real.sqrt ((x - 1) / (x + 1)))
      (nhdsWithin 1 (Ioi 1)) (nhds 1) := tendsto_arctan_div_self.comp tendsto_u_hi_zero
  have hB : Tendsto (fun x : ℝ => 2 / (x + 1)) (nhdsWithin 1 (Ioi 1)) (nhds 1) := by
    have hc : ContinuousAt (fun x : ℝ => 2 / (x + 1)) 1 :=
      ContinuousAt.div continuousAt_const (by fun_prop) (by norm_num)
    have ht : Tendsto (fun x : ℝ => 2 / (x + 1)) (nhdsWithin 1 (Ioi 1))
        (nhds ((2:ℝ) / (1 + 1))) := hc.tendsto.mono_left nhdsWithin_le_nhds
    have hval : (2:ℝ) / (1 + 1) = 1 := by norm_num
    rwa [hval] at ht
  have hmul := hA.mul hB
  rw [one_mul] at hmul
  refine Tendsto.congr' ?_ hmul
  filter_upwards [self_mem_nhdsWithin] with x hx
  have hx1 : 1 < x := hx
  have hv : 0 < (x - 1) / (x + 1) := div_pos (by linarith) (by linarith)
  have hu0 : 0 < Real.sqrt ((x - 1) / (x + 1)) := Real.sqrt_pos.mpr hv
  rw [← sqrt_mul_eq_hi hx1]
  set u := Real.sqrt ((x - 1) / (x + 1)) with hu_def
  have hu : u ≠ 0 := hu0.ne'
  have h1 : x + 1 ≠ 0 := by linarith
  field_simp
  ring

lemma tendsto_T_lo :
    Tendsto (fun x : ℝ => 2 / Real.sqrt (1 - x ^ 2)
        * artanh (Real.sqrt ((1 - x) / (1 + x)))) (nhdsWithin 1 (Iio 1)) (nhds 1) := by
  have hA : Tendsto (fun x : ℝ =>
        artanh (Real.sqrt ((1 - x) / (1 + x))) / Real.sqrt ((1 - x) / (1 + x)))
      (nhdsWithin 1 (Iio 1)) (nhds 1) := tendsto_artanh_div_self.comp tendsto_u_lo_zero
  have hB : Tendsto (fun x : ℝ => 2 / (1 + x)) (nhdsWithin 1 (Iio 1)) (nhds 1) := by
    have hc : ContinuousAt (fun x : ℝ => 2 / (1 + x)) 1 :=
      ContinuousAt.div continuousAt_const (by fun_prop) (by norm_num)
    have ht : Tendsto (fun x : ℝ => 2 / (1 + x)) (nhdsWithin 1 (Iio 1))
        (nhds ((2:ℝ) / (1 + 1))) := hc.tendsto.mono_left nhdsWithin_le_nhds
    have hval : (2:ℝ) / (1 + 1) = 1 := by norm_num
    rwa [hval] at ht
  have hmul := hA.mul hB
  rw [one_mul] at hmul
  refine Tendsto.congr' ?_ hmul
  filter_upwards [Ioo_mem_nhdsWithin_Iio (show (1:ℝ) ∈ Ioc 0 1 by norm_num)] with x hx
  have hv : 0 < (1 - x) / (1 + x) := div_pos (by linarith [hx.2]) (by linarith [hx.1])
  have hu0 : 0 < Real.sqrt ((1 - x) / (1 + x)) := Real.sqrt_pos.mpr hv
  rw [← sqrt_mul_eq_lo (by linarith [hx.1]) hx.2]
  set u := Real.sqrt ((1 - x) / (1 + x)) with hu_def
  have hu : u ≠ 0 := hu0.ne'
  have h1 : 1 + x ≠ 0 := by linarith [hx.1]
  field_simp
  ring

lemma g_hasDerivAt {x : ℝ} (h0 : 0 < x) (hne : x ≠ 1) : HasDerivAt g (h x / x) x := by
  rcases lt_or_gt_of_ne hne with hlt | hgt
  · exact g_hasDerivAt_lt h0 hlt
  · exact g_hasDerivAt_gt hgt

lemma h_hasDerivAt {x : ℝ} (h0 : 0 < x) (hne : x ≠ 1) :
    HasDerivAt h (x * f x / (x ^ 2 - 1)) x := by
  rcases lt_or_gt_of_ne hne with hlt | hgt
  · exact h_hasDerivAt_lt h0 hlt
  · exact h_hasDerivAt_gt hgt

lemma continuousAt_one_of_branches {F A B : ℝ → ℝ} {c : ℝ}
    (hFA : ∀ x : ℝ, 1 < x → F x = A x) (hFB : ∀ x : ℝ, x < 1 → F x = B x) (hF1 : F 1 = c)
    (hA : Tendsto A (nhdsWithin 1 (Ioi 1)) (nhds c))
    (hB : Tendsto B (nhdsWithin 1 (Iio 1)) (nhds c)) :
    ContinuousAt F 1 := by
  show Tendsto F (nhds 1) (nhds (F 1))
  rw [hF1, ← nhds_left'_sup_nhds_right (1:ℝ), tendsto_sup]
  constructor
  · refine Tendsto.congr' ?_ hB
    filter_upwards [self_mem_nhdsWithin] with x hx
    exact (hFB x hx).symm
  · have hIci : Ici (1:ℝ) = insert 1 (Ioi 1) := Ioi_insert.symm
    rw [show nhdsWithin (1:ℝ) (Ici 1) = nhdsWithin 1 (insert 1 (Ioi 1)) from by rw [hIci]]
    rw [nhdsWithin_insert, tendsto_sup]
    constructor
    · exact tendsto_pure_left.mpr fun s hs => hF1 ▸ mem_of_mem_nhds hs
    · refine Tendsto.congr' ?_ hA
      filter_upwards [self_mem_nhdsWithin] with x hx
      exact (hFA x hx).symm

lemma continuousAt_artanh_zero : ContinuousAt artanh 0 := by
  have h1 : ContinuousAt (fun y : ℝ => (1 + y) / (1 - y)) 0 :=
    ContinuousAt.div (by fun_prop) (by fun_prop) (by norm_num)
  have hc := (h1.log (by norm_num)).div_const 2
  exact hc

lemma f_continuousAt_one : ContinuousAt f 1 := by
  refine continuousAt_one_of_branches (fun x hx => f_of_gt hx) (fun x hx => f_of_lt hx)
    f_of_one ?_ ?_
  · have := tendsto_T_hi.const_sub (1:ℝ)
    simpa using this
  · have := tendsto_T_lo.const_sub (1:ℝ)
    simpa using this

lemma continuousAt_half_log_sq : ContinuousAt (fun x : ℝ => 1 / 2 * Real.log (x / 2) ^ 2) 1 := by
  have h1 : ContinuousAt (fun x : ℝ => x / 2) 1 := by fun_prop
  exact ((h1.log (by norm_num)).pow 2).const_mul _

lemma continuousAt_log_half_one : ContinuousAt (fun x : ℝ => Real.log (x / 2)) 1 := by
  have h1 : ContinuousAt (fun x : ℝ => x / 2) 1 := by fun_prop
  exact h1.log (by norm_num)

lemma tendsto_arctan_u_hi_zero :
    Tendsto (fun x : ℝ => Real.arctan (Real.sqrt ((x - 1) / (x + 1))))
      (nhdsWithin 1 (Ioi 1)) (nhds 0) := by
  have hu : Tendsto (fun x : ℝ => Real.sqrt ((x - 1) / (x + 1))) (nhdsWithin 1 (Ioi 1))
      (nhds 0) := tendsto_u_hi_zero.mono_right nhdsWithin_le_nhds
  have := (Real.continuous_arctan.tendsto 0).comp hu
  simpa using this

lemma tendsto_artanh_u_lo_zero :
    Tendsto (fun x : ℝ => artanh (Real.sqrt ((1 - x) / (1 + x))))
      (nhdsWithin 1 (Iio 1)) (nhds 0) := by
  have hu : Tendsto (fun x : ℝ => Real.sqrt ((1 - x) / (1 + x))) (nhdsWithin 1 (Iio 1))
      (nhds 0) := tendsto_u_lo_zero.mono_right nhdsWithin_le_nhds
  have := (continuousAt_artanh_zero.tendsto).comp hu
  simpa [artanh_zero] using this

lemma g_continuousAt_one : ContinuousAt g 1 := by
  refine continuousAt_one_of_branches (fun x hx => g_of_gt hx) (fun x hx => g_of_lt hx)
    g_of_one ?_ ?_
  · have hsm : Tendsto (fun x : ℝ => 1 / 2 * Real.log (x / 2) ^ 2) (nhdsWithin 1 (Ioi 1))
        (nhds (1 / 2 * Real.log ((1:ℝ) / 2) ^ 2)) :=
      continuousAt_half_log_sq.tendsto.mono_left nhdsWithin_le_nhds
    have harc : Tendsto (fun x : ℝ => 2 * Real.arctan (Real.sqrt ((x - 1) / (x + 1))) ^ 2)
        (nhdsWithin 1 (Ioi 1)) (nhds 0) := by
      have := (tendsto_arctan_u_hi_zero.pow 2).const_mul (2:ℝ)
      simpa using this
    have := hsm.add harc
    simpa using this
  · have hsm : Tendsto (fun x : ℝ => 1 / 2 * Real.log (x / 2) ^ 2) (nhdsWithin 1 (Iio 1))
        (nhds (1 / 2 * Real.log ((1:ℝ) / 2) ^ 2)) :=
      continuousAt_half_log_sq.tendsto.mono_left nhdsWithin_le_nhds
    have hart : Tendsto (fun x : ℝ => 2 * artanh (Real.sqrt ((1 - x) / (1 + x))) ^ 2)
        (nhdsWithin 1 (Iio 1)) (nhds 0) := by
      have := (tendsto_artanh_u_lo_zero.pow 2).const_mul (2:ℝ)
      simpa using this
    have := hsm.sub hart
    simpa using this

lemma h_continuousAt_one : ContinuousAt h 1 := by
  refine continuousAt_one_of_branches (fun x hx => h_of_gt hx) (fun x hx => h_of_lt hx)
    h_of_one ?_ ?_
  · have hsm : Tendsto (fun x : ℝ => Real.log (x / 2)) (nhdsWithin 1 (Ioi 1))
        (nhds (Real.log ((1:ℝ) / 2))) :=
      continuousAt_log_half_one.tendsto.mono_left nhdsWithin_le_nhds
    exact hsm.add tendsto_T_hi
  · have hsm : Tendsto (fun x : ℝ => Real.log (x / 2)) (nhdsWithin 1 (Iio 1))
        (nhds (Real.log ((1:ℝ) / 2))) :=
      continuousAt_log_half_one.tendsto.mono_left nhdsWithin_le_nhds
    exact hsm.add tendsto_T_lo

lemma h_tendsto_atTop : Tendsto h atTop atTop := by
  have hlog : Tendsto (fun x : ℝ => Real.log (x / 2)) atTop atTop :=
    Real.tendsto_log_atTop.comp (tendsto_id.atTop_div_const (by norm_num))
  refine tendsto_atTop_mono' atTop ?_ hlog
  filter_upwards [eventually_gt_atTop (1:ℝ)] with x hx
  rw [h_of_gt hx]
  have harc : (0:ℝ) ≤ Real.arctan (Real.sqrt ((x - 1) / (x + 1))) := by
    have := Real.arctan_strictMono.monotone (Real.sqrt_nonneg ((x - 1) / (x + 1)))
    simpa [Real.arctan_zero] using this
  have hnn : 0 ≤ 2 / Real.sqrt (x ^ 2 - 1) * Real.arctan (Real.sqrt ((x - 1) / (x + 1))) :=
    mul_nonneg (by positivity) harc
  linarith

end NFW

/-- The dimensionless intended `NFW.Psi` (nfw.py, line 148). The source line reads
`4 * kappa_s(z_s) * self._g(x)`, which applies the tensor `kappa_s` (computed two lines above
as `self.get_kappa_s(...)`) as a function and therefore raises `TypeError` on every call; the
evident intent — matching the parallel use of `kappa_s` in `kappa` at line 133 — is
`4 * kappa_s * self._g(x)`, modelled here at the dimensionless radius `x = ξ/r_s`. -/
noncomputable def NFW.Psi_intended (kappa_s x : ℝ) : ℝ := 4 * kappa_s * NFW.g x

/-- The dimensionless radial profile of `NFW.alpha_hat` (nfw.py, lines 88-114): the returned
magnitude is `16π·G/c²·ρ_s·r_s³·_h(x)·rad_to_arcsec / ξ ∝ 4·kappa_s·_h(x)/x`, the radial
derivative of `Psi_intended` (the degrees of freedom absorbed into `kappa_s` are the
documented reduced/physical distance-ratio scaling). -/
noncomputable def NFW.alpha_dimensionless (kappa_s x : ℝ) : ℝ := 4 * kappa_s * NFW.h x / x

/-- C1: consistency of the three NFW primitives in their dimensionless radial form, for the
intended `Psi` (the shipped `Psi` raises `TypeError`; see `NFW.Psi_intended`). Away from the
center (`0 < x`) and off the removable singularity (`x ≠ 1`): the deflection profile
`4κ_s·h(x)/x` is the radial derivative of the potential `4κ_s·g(x)`, and the radial Laplacian
of the potential — `(1/x)·(x·ψ'(x))'`, stated here as `(x·ψ'(x))' = x·(2·κ(x))` — equals
twice the convergence `2κ_s·f(x)/(x²−1)` returned by `kappa`. -/
theorem nfw_intended_primitives_mutually_consistent (kappa_s x : ℝ)
    (h0 : 0 < x) (hne : x ≠ 1) :
    HasDerivAt (NFW.Psi_intended kappa_s) (NFW.alpha_dimensionless kappa_s x) x
    ∧ HasDerivAt (fun t => t * NFW.alpha_dimensionless kappa_s t)
        (x * (2 * (2 * kappa_s * NFW.f x / (x ^ 2 - 1)))) x := by
  constructor
  · have hd := (NFW.g_hasDerivAt h0 hne).const_mul (4 * kappa_s)
    have hfun : NFW.Psi_intended kappa_s = fun t => 4 * kappa_s * NFW.g t := rfl
    rw [hfun]
    convert hd using 1
    unfold NFW.alpha_dimensionless
    ring
  · have hd := (NFW.h_hasDerivAt h0 hne).const_mul (4 * kappa_s)
    have hev : (fun t => t * NFW.alpha_dimensionless kappa_s t)
        =ᶠ[nhds x] fun t => 4 * kappa_s * NFW.h t := by
      filter_upwards [Ioi_mem_nhds h0] with t ht
      unfold NFW.alpha_dimensionless
      have htne : t ≠ 0 := ne_of_gt ht
      field_simp
    have hg := hd.congr_of_eventuallyEq hev
    convert hg using 1
    ring

/-- C2 (amended): each of `NFW._f`, `NFW._g`, `NFW._h` is continuous across the branch
boundary `x = 1`, where the `x = 1` branch returns the common two-sided limit — `F(1) = 0`,
`G(1) = ½·ln(1/2)²`, `H(1) = ln(1/2) + 1`; but it is not the case that each yields a finite
value in the limits `x → 0+` and `x → ∞`: `H` tends to `+∞` as `x → ∞`. -/
theorem nfw_fgh_continuous_across_branch_boundary :
    (ContinuousAt NFW.f 1 ∧ NFW.f 1 = 0)
    ∧ (ContinuousAt NFW.g 1 ∧ NFW.g 1 = 1 / 2 * Real.log (1 / 2) ^ 2)
    ∧ (ContinuousAt NFW.h 1 ∧ NFW.h 1 = Real.log (1 / 2) + 1)
    ∧ Tendsto NFW.h atTop atTop :=
  ⟨⟨NFW.f_continuousAt_one, NFW.f_of_one⟩, ⟨NFW.g_continuousAt_one, NFW.g_of_one⟩,
    ⟨NFW.h_continuousAt_one, NFW.h_of_one⟩, NFW.h_tendsto_atTop⟩

/-- C2 counterexample: the auxiliary function `NFW._h` does not yield a finite value in the
limit `x → ∞` — it converges to no real number along `atTop` (it grows like `ln(x/2)`). -/
theorem nfw_h_no_finite_limit_at_infinity :
    ¬ ∃ L : ℝ, Tendsto NFW.h atTop (nhds L) := by
  rintro ⟨L, hL⟩
  exact not_tendsto_nhds_of_tendsto_atTop NFW.h_tendsto_atTop L hL

/-- Witness for C1 at `kappa_s = 1`, `x = 2`. -/
theorem nfw_intended_primitives_mutually_consistent_witness :
    (0:ℝ) < 2 ∧ (2:ℝ) ≠ 1
    ∧ (HasDerivAt (NFW.Psi_intended 1) (NFW.alpha_dimensionless 1 2) 2
        ∧ HasDerivAt (fun t => t * NFW.alpha_dimensionless 1 t)
            (2 * (2 * (2 * 1 * NFW.f 2 / (2 ^ 2 - 1)))) 2) :=
  ⟨by norm_num, by norm_num,
    nfw_intended_primitives_mutually_consistent 1 2 (by norm_num) (by norm_num)⟩

end Caustics
